import Mathlib

/-!
Shallow embedding of the BusyBeaverReduction core (Rust) and proofs about
its claims. Machine integers (u8, i32, i64, usize) are modelled as Nat or
Int; HashMaps as association lists with HashMap lookup/insert semantics;
strings as lists of characters. Each definition is translated from the
named source item.
-/

namespace BusyBeaver

/-- Direction of a tape-head move (src/turing_machine/direction.rs). -/
inductive Direction where
  | LEFT
  | RIGHT
deriving DecidableEq, Repr

/-- Numeric code of a direction: LEFT = 0, RIGHT = 1 (Direction::value). -/
def Direction.value : Direction → Nat
  | .LEFT => 0
  | .RIGHT => 1

/-- Direction::transform: decodes a numeric code; any code other than 0 or
1 falls back to LEFT. -/
def Direction.transform : Nat → Direction
  | 0 => .LEFT
  | 1 => .RIGHT
  | _ => .LEFT

/-- Special machine states (src/turing_machine/special_states.rs). -/
inductive SpecialStates where
  | STATE_START
  | STATE_HALT
  | DEFAULT
deriving DecidableEq, Repr

/-- SpecialStates::value: Start = 0, Halt = 101, Default = 1. -/
def SpecialStates.value : SpecialStates → Nat
  | .STATE_START => 0
  | .STATE_HALT => 101
  | .DEFAULT => 1

/-- SpecialStates::transform: 0 = Start, 101 = Halt, anything else Default. -/
def SpecialStates.transform : Nat → SpecialStates
  | 0 => .STATE_START
  | 101 => .STATE_HALT
  | _ => .DEFAULT

/-- A single transition rule (src/delta/transition.rs); the u8 fields are
modelled as Nat, with the in-range side conditions stated where they
matter. -/
structure Transition where
  from_state : Nat
  from_symbol : Nat
  to_state : Nat
  to_symbol : Nat
  direction : Direction
deriving DecidableEq, Repr

/-- Transition::new. -/
def Transition.new : Transition := ⟨0, 0, 0, 0, .LEFT⟩

/-- The transition table (src/delta/transition_function.rs): the source's
HashMap<(u8, u8), (u8, u8, Direction)> is modelled as an association list
carrying HashMap lookup/insert semantics. -/
structure TransitionFunction where
  number_of_states : Nat
  number_of_symbols : Nat
  transitions : List ((Nat × Nat) × (Nat × Nat × Direction))
deriving DecidableEq, Repr

/-- TransitionFunction::new. -/
def TransitionFunction.new (number_of_states number_of_symbols : Nat) :
    TransitionFunction :=
  ⟨number_of_states, number_of_symbols, []⟩

/-- HashMap::get on the modelled transition table. -/
def tfGet (k : Nat × Nat) :
    List ((Nat × Nat) × (Nat × Nat × Direction)) → Option (Nat × Nat × Direction)
  | [] => none
  | e :: rest => if e.1 = k then some e.2 else tfGet k rest

/-- HashMap::insert on the modelled transition table: replaces any binding
of the same key. -/
def tfInsert (k : Nat × Nat) (v : Nat × Nat × Direction)
    (m : List ((Nat × Nat) × (Nat × Nat × Direction))) :
    List ((Nat × Nat) × (Nat × Nat × Direction)) :=
  (k, v) :: m.filter (fun e => decide (e.1 ≠ k))

/-- TransitionFunction::add_transition: inserts the rule keyed by
(from_state, from_symbol). -/
def TransitionFunction.add_transition (tf : TransitionFunction) (t : Transition) :
    TransitionFunction :=
  { tf with
    transitions :=
      tfInsert (t.from_state, t.from_symbol) (t.to_state, t.to_symbol, t.direction)
        tf.transitions }

/-- Modelled from the spec: the FilterVerdict / FilterRuntimeType tag whose
declaration is not under src/ (turing_machine.rs and runner.rs reference it;
spec section 3 lists its five variants None, ShortEscapee, LongEscapee,
Cycler, TranslatedCycler). -/
inductive FilterRuntimeType where
  | None
  | ShortEscapee
  | LongEscapee
  | Cycler
  | TranslatedCycler
deriving DecidableEq, Repr

/-- The step budget MAX_STEPS_TO_RUN of turing_machine.rs. -/
def MAX_STEPS_TO_RUN : Int := 21

/-- The simulator state (src/turing_machine/turing_machine.rs); steps,
score and runtime (i64/i32/i64) are modelled as Int, tape cells (u8) as
Nat. -/
structure TuringMachine where
  transition_function : TransitionFunction
  tape : List Nat
  tape_increased : Bool
  head_position : Nat
  current_state : Nat
  halted : Bool
  steps : Int
  score : Int
  runtime : Int
  filtered : FilterRuntimeType
deriving DecidableEq, Repr

/-- TuringMachine::new. -/
def TuringMachine.new (transition_function : TransitionFunction) : TuringMachine :=
  { transition_function := transition_function
    tape := [0]
    tape_increased := false
    head_position := 0
    current_state := SpecialStates.STATE_START.value
    halted := false
    steps := 0
    score := 0
    runtime := 0
    filtered := FilterRuntimeType.None }

/-- TuringMachine::set_score: adds the number of 1s on the tape to score. -/
def TuringMachine.set_score (tm : TuringMachine) : TuringMachine :=
  { tm with score := tm.score + (tm.tape.count 1 : Nat) }

/-- TuringMachine::move_left: at the leftmost cell a blank is inserted at
the front (the head index stays 0); otherwise the head moves one cell
left. -/
def TuringMachine.move_left (tm : TuringMachine) : TuringMachine :=
  if tm.head_position = 0 then
    { tm with tape := 0 :: tm.tape, tape_increased := true }
  else
    { tm with head_position := tm.head_position - 1 }

/-- TuringMachine::move_right: the head moves right; when it passes the
last index a blank is appended. The source compares against
`tape.len() - 1` (usize); Nat subtraction agrees with it whenever the tape
is nonempty, which the machine invariant guarantees. -/
def TuringMachine.move_right (tm : TuringMachine) : TuringMachine :=
  let moved := { tm with head_position := tm.head_position + 1 }
  if moved.tape.length - 1 < moved.head_position then
    { moved with tape := moved.tape ++ [0], tape_increased := true }
  else
    moved

/-- TuringMachine::move_: counts the step, then moves the head. -/
def TuringMachine.move_ (tm : TuringMachine) (direction : Direction) : TuringMachine :=
  let counted := { tm with steps := tm.steps + 1 }
  match direction with
  | .LEFT => counted.move_left
  | .RIGHT => counted.move_right

/-- TuringMachine::is_halted: flags halted when the current state code is
the Halt code. -/
def TuringMachine.is_halted (tm : TuringMachine) : TuringMachine :=
  match SpecialStates.transform tm.current_state with
  | .STATE_HALT => { tm with halted := true }
  | _ => tm

/-- TuringMachine::make_transition: looks up (current_state, tape[head]);
on a hit it clears tape_increased, sets the state, writes the symbol,
moves (counting the step), checks halting and returns true; on a miss it
returns false. Tape reads are modelled with getD, which agrees with the
source's indexing whenever the head is in bounds. -/
def TuringMachine.make_transition (tm : TuringMachine) : Bool × TuringMachine :=
  match tfGet (tm.current_state, tm.tape.getD tm.head_position 0)
      tm.transition_function.transitions with
  | some t =>
    let written := { tm with
      tape_increased := false
      current_state := t.1
      tape := tm.tape.set tm.head_position t.2.1 }
    (true, (written.move_ t.2.2).is_halted)
  | none => (false, tm)

/-- TuringMachine::encode: the configuration the cycler filter records.
The source hashes the tape with SHA-256 and treats hash equality as tape
equality (spec 4.5); the hash is modelled as the tape itself. -/
def TuringMachine.encode (tm : TuringMachine) : List Nat × Nat × Nat :=
  (tm.tape, tm.head_position, tm.current_state)

/-- Runtime-filter internal state (src/filter/filter_runtime.rs): the
long-escapee counter (u8, modelled as Nat) and the cycler history. -/
structure FilterRuntime where
  counter : Nat
  history : List (List Nat × Nat × Nat)
deriving DecidableEq, Repr

/-- FilterRuntime::new. -/
def FilterRuntime.new : FilterRuntime := ⟨0, []⟩

/-- FilterRuntime::filter_long_escapees: counts consecutive steps that
visited a fresh cell; passes while the count stays at or below the number
of states. -/
def FilterRuntime.filter_long_escapees (fs : FilterRuntime) (tm : TuringMachine) :
    Bool × FilterRuntime :=
  if tm.tape.length = 0 then (true, fs)
  else if tm.tape_increased = false then (true, { fs with counter := 0 })
  else
    let fs' := { fs with counter := fs.counter + 1 }
    (decide (fs'.counter ≤ tm.transition_function.number_of_states), fs')

/-- FilterRuntime::filter_short_escapees (stateless): after a step that
visited a fresh cell, rejects when the transition at the new
(state, symbol) key stays in the same state, writes the same symbol, that
symbol is 0, and the move is RIGHT. -/
def FilterRuntime.filter_short_escapees (tm : TuringMachine) : Bool :=
  if tm.tape.length = 0 then true
  else if tm.tape_increased = false then true
  else
    match tfGet (tm.current_state, tm.tape.getD tm.head_position 0)
        tm.transition_function.transitions with
    | some t =>
      !(decide (tm.current_state = t.1) &&
        decide (tm.tape.getD tm.head_position 0 = t.2.1) &&
        decide (t.2.1 = 0) && decide (t.2.2 = Direction.RIGHT))
    | none => true

/-- FilterRuntime::filter_cyclers: rejects when the current configuration
already appears in the history, else records it. -/
def FilterRuntime.filter_cyclers (fs : FilterRuntime) (tm : TuringMachine) :
    Bool × FilterRuntime :=
  let c := tm.encode
  if c ∈ fs.history then (false, fs)
  else (true, { fs with history := fs.history ++ [c] })

/-- FilterRuntime::filter_all: the three runtime filters combined with
Rust's short-circuiting `&&`, in the source's order: long escapees, then
short escapees, then cyclers. Only the filters actually evaluated update
the filter state. -/
def FilterRuntime.filter_all (fs : FilterRuntime) (tm : TuringMachine) :
    Bool × FilterRuntime :=
  let r := fs.filter_long_escapees tm
  if r.1 then
    if FilterRuntime.filter_short_escapees tm then r.2.filter_cyclers tm
    else (false, r.2)
  else (false, r.2)

/-- Modelled from the spec: the verdict tag attached by
TuringMachine::execute (which matches on a FilterRuntimeType returned by
filter_all; that revision of filter_all is not under src/). Evaluation
order and short-circuiting follow the filter_all that is under src/: the
tag is the first filter to reject, in the order long escapees, short
escapees, cyclers. -/
def FilterRuntime.filter_all_tagged (fs : FilterRuntime) (tm : TuringMachine) :
    FilterRuntimeType × FilterRuntime :=
  let r := fs.filter_long_escapees tm
  if r.1 then
    if FilterRuntime.filter_short_escapees tm then
      let rc := r.2.filter_cyclers tm
      if rc.1 then (.None, rc.2) else (.Cycler, rc.2)
    else (.ShortEscapee, r.2)
  else (.LongEscapee, r.2)

/-- The while loop of TuringMachine::execute, with explicit fuel: each
iteration consumes one unit; none means the fuel ran out (the termination
theorem shows the fuel below never does). While the machine has not
halted and is under the step budget, the filters observe the current
configuration; a rejection records the verdict and stops, otherwise one
more transition is made. -/
def executeLoop : Nat → FilterRuntime → TuringMachine → Option TuringMachine
  | 0, _, _ => none
  | n + 1, fs, tm =>
    if tm.halted = false ∧ tm.steps < MAX_STEPS_TO_RUN then
      let r := fs.filter_all_tagged tm
      if r.1 = FilterRuntimeType.None then executeLoop n r.2 (tm.make_transition).2
      else some { tm with filtered := r.1 }
    else
      some tm

/-- Fuel sufficient for the execute loop, as the termination theorem
proves: one block of iterations per counted step, plus the bounded tail an
undefined transition can add. -/
def TuringMachine.fuel (tm : TuringMachine) : Nat :=
  ((MAX_STEPS_TO_RUN - tm.steps).toNat + 1) *
    (tm.transition_function.number_of_states + 3)

/-- TuringMachine::execute: one unconditional transition, then the
filtered loop, then the score metric (set_score). The wall-clock runtime
metric (set_runtime) is not modelled. -/
def TuringMachine.execute (tm : TuringMachine) : Option TuringMachine :=
  let tm1 := (tm.make_transition).2
  (executeLoop tm1.fuel FilterRuntime.new tm1).map TuringMachine.set_score

/-- FilterGenerate::filter_start_state_moves_into_loop
(src/filter/filter_generate.rs): passes unless the entry at (Start, 0)
maps back into the start state. -/
def FilterGenerate.filter_start_state_moves_into_loop (tf : TransitionFunction) : Bool :=
  match tfGet (SpecialStates.STATE_START.value, 0) tf.transitions with
  | some t => !(decide (t.1 = SpecialStates.STATE_START.value))
  | none => true

/-- FilterGenerate::filter_moves_to_halting_state: passes unless the entry
at (Start, 0) maps into the halting state. -/
def FilterGenerate.filter_moves_to_halting_state (tf : TransitionFunction) : Bool :=
  match tfGet (SpecialStates.STATE_START.value, 0) tf.transitions with
  | some t => !(decide (t.1 = SpecialStates.STATE_HALT.value))
  | none => true

/-- FilterGenerate::filter_moves_into_neighbour_loop: with
(Start, 0) mapped to (p, _, d), passes unless the entry at (p, 0) stays in
state p with the same direction d. -/
def FilterGenerate.filter_moves_into_neighbour_loop (tf : TransitionFunction) : Bool :=
  match tfGet (SpecialStates.STATE_START.value, 0) tf.transitions with
  | none => true
  | some t =>
    match tfGet (t.1, 0) tf.transitions with
    | none => true
    | some t2 => !(decide (t2.1 = t.1) && decide (t2.2.2 = t.2.2))

/-- FilterGenerate::filter_all: the accept/reject decision (the source
additionally keeps per-filter statistics, which decide nothing). -/
def FilterGenerate.filter_all (tf : TransitionFunction) : Bool :=
  FilterGenerate.filter_start_state_moves_into_loop tf &&
    FilterGenerate.filter_moves_into_neighbour_loop tf &&
    FilterGenerate.filter_moves_to_halting_state tf

/-- GeneratorTransitionFunction::get_maximum_no_of_transition_functions
(src/generator/generator_transition_function.rs): ALPHABET has 2 symbols
and DIRECTIONS 2 directions, so the codomain has (n + 1) * 2 * 2 values
and the domain n * 2 keys. -/
def get_maximum_no_of_transition_functions (number_of_states : Nat) : Nat :=
  ((number_of_states + 1) * 2 * 2) ^ (number_of_states * 2)

/-- Decimal digits of a Nat, most significant first, with explicit fuel
(u8::to_string in the source). -/
def natToCharsAux : Nat → Nat → List Char
  | 0, _ => []
  | fuel + 1, n =>
    if n < 10 then [Nat.digitChar n]
    else natToCharsAux fuel (n / 10) ++ [Nat.digitChar (n % 10)]

/-- Decimal rendering of a Nat as characters. -/
def natToChars (n : Nat) : List Char := natToCharsAux (n + 1) n

/-- Value of a decimal digit character. -/
def digitVal (c : Char) : Option Nat :=
  if '0' ≤ c ∧ c ≤ '9' then some (c.toNat - '0'.toNat) else none

/-- Accumulating decimal parser over characters. -/
def parseNatAux : List Char → Nat → Option Nat
  | [], acc => some acc
  | c :: cs, acc =>
    match digitVal c with
    | some d => parseNatAux cs (acc * 10 + d)
    | none => none

/-- str::parse::<u8> modelled: nonempty, all digits, value at most 255. -/
def parseU8 (cs : List Char) : Option Nat :=
  match cs with
  | [] => none
  | _ =>
    match parseNatAux cs 0 with
    | some n => if n ≤ 255 then some n else none
    | none => none

/-- Vec::join with a one-character separator, at the character-list level. -/
def joinSep (sep : Char) : List (List Char) → List Char
  | [] => []
  | [x] => x
  | x :: xs => x ++ sep :: joinSep sep xs

/-- str::split on a one-character separator: always returns at least one
piece; splitting the empty string yields one empty piece. -/
def splitSep (sep : Char) : List Char → List (List Char)
  | [] => [[]]
  | c :: cs =>
    match splitSep sep cs with
    | [] => [[c]]
    | h :: t => if c = sep then [] :: h :: t else (c :: h) :: t

/-- Transition::encode: the five fields rendered in decimal, joined with
commas (the direction via Direction::value). -/
def Transition.encode (t : Transition) : List Char :=
  joinSep ','
    [natToChars t.from_state, natToChars t.from_symbol, natToChars t.to_state,
      natToChars t.to_symbol, natToChars t.direction.value]

/-- Transition::decode: splits on commas, parses every field as u8
(unwrap on failure is modelled as none) and reads fields 0..4; fewer than
five fields would index out of bounds, modelled as none. -/
def Transition.decode (cs : List Char) : Option Transition :=
  match (splitSep ',' cs).mapM parseU8 with
  | some (a :: b :: c :: d :: e :: _) => some ⟨a, b, c, d, Direction.transform e⟩
  | _ => none

/-- Transition::get_from_hashmap: a table entry as a Transition. -/
def Transition.get_from_hashmap (e : (Nat × Nat) × (Nat × Nat × Direction)) :
    Transition :=
  ⟨e.1.1, e.1.2, e.2.1, e.2.2.1, e.2.2.2⟩

/-- TransitionFunction::encode: every entry encoded
(Transition::encode_from_hashmap), joined with '|'. HashMap iteration
order is arbitrary; here it is the entry-list order, and the round-trip
theorem quantifies over all permutations of it. -/
def TransitionFunction.encode (tf : TransitionFunction) : List Char :=
  joinSep '|' (tf.transitions.map (fun e => (Transition.get_from_hashmap e).encode))

/-- TransitionFunction::decode: splits on '|', decodes each transition and
adds it to the table. -/
def TransitionFunction.decode (tf : TransitionFunction) (encoded : List Char) :
    Option TransitionFunction :=
  match (splitSep '|' encoded).mapM Transition.decode with
  | some ts => some (ts.foldl TransitionFunction.add_transition tf)
  | none => none

/-- The ShortEscapee rejection condition exactly as the claim words it
(for comparison with the source's filter): the last step visited a fresh
cell and the transition at the new (state, symbol 0) key maps to the same
state, writes 0, and moves in the direction the tape just grew (head 0
means it grew LEFT, otherwise RIGHT, as filter_translated_cyclers.rs
identifies growth). -/
def shortEscapeeClaim (tm : TuringMachine) : Bool :=
  let escape := if tm.head_position = 0 then Direction.LEFT else Direction.RIGHT
  tm.tape_increased &&
    (tfGet (tm.current_state, 0) tm.transition_function.transitions ==
      some (tm.current_state, 0, escape))

/-- A transition table whose single rule escapes leftward forever:
(0, 0) maps to (0, 0, LEFT). -/
def tfLeft : TransitionFunction := ⟨1, 2, [((0, 0), (0, 0, .LEFT))]⟩

/-- The machine over tfLeft after its first step: the tape grew leftward
and the (0, 0) rule is a leftward self-loop. -/
def tmLeft : TuringMachine := ((TuringMachine.new tfLeft).make_transition).2

/-- A table on which the long-escapee and short-escapee observers first
reject at the same configuration: one declared state, rules
(0,0) to (1,0,R), (1,0) to (2,0,R), (2,0) to (2,0,R). -/
def tfC3 : TransitionFunction :=
  ⟨1, 2, [((0, 0), (1, 0, .RIGHT)), ((1, 0), (2, 0, .RIGHT)), ((2, 0), (2, 0, .RIGHT))]⟩

/-- The machine over tfC3 after its second step: the configuration the
runtime filter bundle rejects. -/
def tmC3b : TuringMachine :=
  (((TuringMachine.new tfC3).make_transition).2.make_transition).2

/-- A table that halts immediately: (0, 0) maps to (Halt, 1, RIGHT). -/
def tfHalt : TransitionFunction := ⟨1, 2, [((0, 0), (101, 1, .RIGHT))]⟩

/-- A complete two-entry transition table used to witness the round-trip
theorem at a concrete input. -/
def tfC1 : TransitionFunction :=
  ⟨2, 2, [((0, 0), (1, 1, .RIGHT)), ((0, 1), (101, 1, .RIGHT))]⟩

/-- The machine-state invariant of the claim: the head is a valid tape
index and every cell holds an alphabet symbol. -/
def TuringMachine.inv (tm : TuringMachine) : Prop :=
  tm.head_position < tm.tape.length ∧ ∀ c ∈ tm.tape, c = 0 ∨ c = 1

/-- A transition table writes only alphabet symbols when every entry's
to_symbol is 0 or 1. -/
def TransitionFunction.writesAlphabet (tf : TransitionFunction) : Prop :=
  ∀ e ∈ tf.transitions, e.2.2.1 = 0 ∨ e.2.2.1 = 1

/-!
Theorems. Helper lemmas come first, then one theorem per claim (with its
witness or counterexample where required).
-/

/-- A missing (state, symbol) key leaves make_transition without effect:
it returns false and the machine unchanged. -/
theorem make_transition_miss {tm : TuringMachine}
    (h : tfGet (tm.current_state, tm.tape.getD tm.head_position 0)
      tm.transition_function.transitions = none) :
    tm.make_transition = (false, tm) := by
  unfold TuringMachine.make_transition
  rw [h]

/-- C9 counterexample: the enumerator's pre-filter count for Q = 2 is not
6 ^ 4 = 1296. -/
theorem c9_counterexample : get_maximum_no_of_transition_functions 2 ≠ 1296 := by
  decide

/-- C9 (amended): for Q = 2 the pre-filter count computed by the
enumerator equals ((Q + 1) * 2 * 2) ^ (Q * 2) = 12 ^ 4 = 20736. -/
theorem c9_amended : get_maximum_no_of_transition_functions 2 = 20736 := by
  decide

/-- C10: a make_transition call whose (state, symbol) key is absent from
the transition table returns false and leaves every field of the machine
unchanged: the failed step is atomic. -/
theorem c10_miss_is_atomic (tm : TuringMachine)
    (h : tfGet (tm.current_state, tm.tape.getD tm.head_position 0)
      tm.transition_function.transitions = none) :
    tm.make_transition = (false, tm) :=
  make_transition_miss h

/-- C10 witness: the fresh machine over an empty transition table. -/
theorem c10_miss_is_atomic_witness :
    (TuringMachine.new (TransitionFunction.new 2 2)).make_transition =
      (false, TuringMachine.new (TransitionFunction.new 2 2)) :=
  c10_miss_is_atomic (TuringMachine.new (TransitionFunction.new 2 2)) rfl

/-- C2 counterexample: on a missing transition the machine is not flagged
as halted: the step returns false and halted remains false. -/
theorem c2_counterexample :
    ((TuringMachine.new (TransitionFunction.new 3 2)).make_transition).1 = false ∧
      ((TuringMachine.new (TransitionFunction.new 3 2)).make_transition).2.halted = false :=
  ⟨rfl, rfl⟩

/-- C2 (amended): when the transition table has no entry for the current
(state, symbol) pair, make_transition returns false and leaves halted
unchanged: the machine is not flagged as halted by the step itself (only
the surrounding loop's filters or budget stop it). -/
theorem c2_amended_miss_not_flagged (tm : TuringMachine)
    (h : tfGet (tm.current_state, tm.tape.getD tm.head_position 0)
      tm.transition_function.transitions = none) :
    (tm.make_transition).1 = false ∧ (tm.make_transition).2.halted = tm.halted := by
  rw [make_transition_miss h]
  exact ⟨rfl, rfl⟩

/-- C2 witness: a fresh machine over an empty table with 4 declared
states. -/
theorem c2_amended_witness :
    ((TuringMachine.new (TransitionFunction.new 4 2)).make_transition).1 = false ∧
      ((TuringMachine.new (TransitionFunction.new 4 2)).make_transition).2.halted =
        (TuringMachine.new (TransitionFunction.new 4 2)).halted :=
  c2_amended_miss_not_flagged (TuringMachine.new (TransitionFunction.new 4 2)) rfl

/-- C5: moving LEFT at head 0 prepends a blank, sets tape_increased and
keeps the head at 0; moving RIGHT increments the head and, exactly when
the new head passes the last tape index, appends a blank and sets
tape_increased. -/
theorem c5_boundary_moves (tm tmr : TuringMachine) (h : tm.head_position = 0) :
    tm.move_left = { tm with tape := 0 :: tm.tape, tape_increased := true } ∧
      (tm.move_left).head_position = 0 ∧
      (tmr.move_right).head_position = tmr.head_position + 1 ∧
      (tmr.tape.length - 1 < tmr.head_position + 1 →
        (tmr.move_right).tape = tmr.tape ++ [0] ∧
          (tmr.move_right).tape_increased = true) ∧
      (¬ (tmr.tape.length - 1 < tmr.head_position + 1) →
        (tmr.move_right).tape = tmr.tape ∧
          (tmr.move_right).tape_increased = tmr.tape_increased) := by
  refine ⟨?_, ?_, ?_, ?_, ?_⟩
  · simp [TuringMachine.move_left, h]
  · simp [TuringMachine.move_left, h]
  · by_cases hc : tmr.tape.length - 1 < tmr.head_position + 1 <;>
      simp [TuringMachine.move_right, hc]
  · intro hc
    simp [TuringMachine.move_right, hc]
  · intro hc
    simp [TuringMachine.move_right, hc]

/-- C5 witness: the left boundary move at the fresh machine. -/
theorem c5_boundary_moves_witness :
    (TuringMachine.new (TransitionFunction.new 2 2)).move_left =
      { TuringMachine.new (TransitionFunction.new 2 2) with
        tape := [0, 0], tape_increased := true } :=
  (c5_boundary_moves (TuringMachine.new (TransitionFunction.new 2 2))
    (TuringMachine.new (TransitionFunction.new 2 2)) rfl).1

/-- C4 counterexample: after one step of the machine over tfLeft the tape
grew leftward onto a fresh cell and the (0, 0) rule is a same-state,
write-0 self-loop in the escape direction (LEFT), so the claim's condition
holds (shortEscapeeClaim), yet the source's short-escapee filter passes
the machine (it demands a RIGHT move regardless of the escape
direction). -/
theorem c4_counterexample :
    FilterRuntime.filter_short_escapees tmLeft = true ∧
      shortEscapeeClaim tmLeft = true ∧ tmLeft.tape_increased = true := by
  decide

/-- C4 (amended): the runtime short-escapee filter rejects exactly when
the tape is nonempty, the last step visited a fresh cell, the symbol under
the head is 0, and the transition at (current_state, 0) maps to the same
state, writes 0 and moves RIGHT; the direction of the escape itself is
never consulted. -/
theorem c4_short_escapee_characterisation (tm : TuringMachine) :
    FilterRuntime.filter_short_escapees tm = false ↔
      (tm.tape.length ≠ 0 ∧ tm.tape_increased = true ∧
        tm.tape.getD tm.head_position 0 = 0 ∧
        tfGet (tm.current_state, 0) tm.transition_function.transitions =
          some (tm.current_state, 0, Direction.RIGHT)) := by
  unfold FilterRuntime.filter_short_escapees
  by_cases h0 : tm.tape.length = 0
  · simp [h0]
  · cases hb : tm.tape_increased
    · simp [h0, hb]
    · simp only [h0, hb, if_false, Bool.true_eq_false, if_neg, ite_false, ne_eq,
        not_false_iff, true_and]
      by_cases hs : tm.tape.getD tm.head_position 0 = 0
      · cases hget : tfGet (tm.current_state, tm.tape.getD tm.head_position 0)
            tm.transition_function.transitions with
        | none =>
          rw [hs] at hget
          rw [hs]
          simp only [hget, Bool.true_eq_false, false_iff, not_and]
          intro _ h2
          cases h2
        | some t =>
          obtain ⟨ts, tsym, td⟩ := t
          rw [hs] at hget
          rw [hs]
          simp only [hget, Option.some.injEq, Prod.mk.injEq, Bool.not_eq_false',
            Bool.and_eq_true, decide_eq_true_eq]
          constructor
          · rintro ⟨⟨⟨h1, h2⟩, h3⟩, h4⟩
            exact ⟨trivial, h1.symm, h3, h4⟩
          · rintro ⟨-, h1, h2, h3⟩
            exact ⟨⟨⟨h1.symm, h2.symm⟩, h2⟩, h3⟩
      · cases hget : tfGet (tm.current_state, tm.tape.getD tm.head_position 0)
            tm.transition_function.transitions with
        | none =>
          simp only [hget, Bool.true_eq_false, false_iff, not_and]
          intro h1
          exact absurd h1 hs
        | some t =>
          obtain ⟨ts, tsym, td⟩ := t
          simp only [hget, Bool.not_eq_false', Bool.and_eq_true, decide_eq_true_eq]
          constructor
          · rintro ⟨⟨⟨h1, h2⟩, h3⟩, h4⟩
            exact absurd (h3 ▸ h2) hs
          · rintro ⟨h1, h2⟩
            exact absurd h1 hs

/-- C3 counterexample: executing the machine over tfC3 stops at the
configuration tmC3b with the LongEscapee tag attached, although the
ShortEscapee observer also rejects tmC3b; had the bundle applied
ShortEscapee first, as the claim states, its tag would have been
attached. -/
theorem c3_counterexample :
    (TuringMachine.new tfC3).execute =
      some (TuringMachine.set_score
        { tmC3b with filtered := FilterRuntimeType.LongEscapee }) ∧
      FilterRuntime.filter_short_escapees tmC3b = false ∧
      tmC3b.tape_increased = true := by
  decide

/-- C3 (amended): the runtime bundle applies its observers in the order
LongEscapee, ShortEscapee, Cycler with Rust's short-circuiting: the first
observer to reject determines the tag, a later observer is consulted only
when every earlier one passed, the tag is None exactly when filter_all
passes, and TranslatedCycler is never produced (that observer is not part
of the bundle). -/
theorem c3_observer_order (fs : FilterRuntime) (tm : TuringMachine) :
    ((fs.filter_all_tagged tm).1 = FilterRuntimeType.LongEscapee ↔
      (fs.filter_long_escapees tm).1 = false) ∧
      ((fs.filter_all_tagged tm).1 = FilterRuntimeType.ShortEscapee ↔
        ((fs.filter_long_escapees tm).1 = true ∧
          FilterRuntime.filter_short_escapees tm = false)) ∧
      ((fs.filter_all_tagged tm).1 = FilterRuntimeType.Cycler ↔
        ((fs.filter_long_escapees tm).1 = true ∧
          FilterRuntime.filter_short_escapees tm = true ∧
          ((fs.filter_long_escapees tm).2.filter_cyclers tm).1 = false)) ∧
      ((fs.filter_all_tagged tm).1 = FilterRuntimeType.None ↔
        (fs.filter_all tm).1 = true) ∧
      (fs.filter_all_tagged tm).1 ≠ FilterRuntimeType.TranslatedCycler := by
  cases hbL : (fs.filter_long_escapees tm).1 <;>
    cases hbS : FilterRuntime.filter_short_escapees tm <;>
      cases hbC : ((fs.filter_long_escapees tm).2.filter_cyclers tm).1 <;>
        simp [FilterRuntime.filter_all_tagged, FilterRuntime.filter_all, hbL, hbS, hbC]

/-- C6: the generation-time filter rejects a partial transition function
exactly when its (Start, 0) entry maps into the start state, or maps to
some (p, _, d) while the (p, 0) entry stays in state p with the same
direction d, or maps into the halting state; a function with no (Start, 0)
entry is accepted. -/
theorem c6_filter_generate_characterisation (tf : TransitionFunction) :
    (FilterGenerate.filter_all tf = false ↔
      ∃ v, tfGet (SpecialStates.STATE_START.value, 0) tf.transitions = some v ∧
        (v.1 = SpecialStates.STATE_START.value ∨
          (∃ w, tfGet (v.1, 0) tf.transitions = some w ∧
            w.1 = v.1 ∧ w.2.2 = v.2.2) ∨
          v.1 = SpecialStates.STATE_HALT.value)) ∧
      (tfGet (SpecialStates.STATE_START.value, 0) tf.transitions = none →
        FilterGenerate.filter_all tf = true) := by
  cases hv : tfGet (SpecialStates.STATE_START.value, 0) tf.transitions with
  | none =>
    simp [FilterGenerate.filter_all, FilterGenerate.filter_start_state_moves_into_loop,
      FilterGenerate.filter_moves_into_neighbour_loop,
      FilterGenerate.filter_moves_to_halting_state, hv]
  | some v =>
    obtain ⟨p, s, d⟩ := v
    constructor
    · cases hw : tfGet (p, 0) tf.transitions with
      | none =>
        simp [FilterGenerate.filter_all,
          FilterGenerate.filter_start_state_moves_into_loop,
          FilterGenerate.filter_moves_into_neighbour_loop,
          FilterGenerate.filter_moves_to_halting_state, hv, hw]
        tauto
      | some w =>
        obtain ⟨wp, ws, wd⟩ := w
        simp [FilterGenerate.filter_all,
          FilterGenerate.filter_start_state_moves_into_loop,
          FilterGenerate.filter_moves_into_neighbour_loop,
          FilterGenerate.filter_moves_to_halting_state, hv, hw]
        tauto
    · intro h
      simp at h

/-- A successful table lookup returns a stored entry. -/
theorem tfGet_mem {k : Nat × Nat} {v : Nat × Nat × Direction}
    {l : List ((Nat × Nat) × (Nat × Nat × Direction))} (h : tfGet k l = some v) :
    (k, v) ∈ l := by
  induction l with
  | nil => cases h
  | cons e rest ih =>
    rw [tfGet] at h
    split at h
    · rename_i he
      injection h with h2
      have he2 : e = (k, v) := by
        obtain ⟨ek, ev⟩ := e
        simp only at he h2
        rw [he, h2]
      rw [he2]
      exact List.mem_cons_self _ _
    · exact List.mem_cons_of_mem _ (ih h)

/-- A left move preserves the machine invariant. -/
theorem move_left_inv {tm : TuringMachine} (h : tm.inv) : tm.move_left.inv := by
  obtain ⟨hh, hc⟩ := h
  unfold TuringMachine.move_left TuringMachine.inv
  by_cases h0 : tm.head_position = 0
  · simp only [h0, if_pos]
    refine ⟨by simp, ?_⟩
    intro c hcm
    rcases List.mem_cons.mp hcm with hc0 | hcm
    · exact Or.inl hc0
    · exact hc c hcm
  · simp only [h0, if_neg, ite_false]
    exact ⟨lt_of_le_of_lt (Nat.sub_le _ _) hh, hc⟩

/-- A right move preserves the machine invariant. -/
theorem move_right_inv {tm : TuringMachine} (h : tm.inv) : tm.move_right.inv := by
  obtain ⟨hh, hc⟩ := h
  unfold TuringMachine.inv
  by_cases hgrow : tm.tape.length - 1 < tm.head_position + 1 <;>
    simp only [TuringMachine.move_right, hgrow, if_true, if_false, ite_true, ite_false]
  · refine ⟨?_, ?_⟩
    · simp only [List.length_append, List.length_cons, List.length_nil]
      omega
    · intro c hcm
      rcases List.mem_append.mp hcm with hcm | hcm
      · exact hc c hcm
      · simp only [List.mem_singleton] at hcm
        exact Or.inl hcm
  · refine ⟨?_, hc⟩
    simp only at hgrow ⊢
    omega

/-- The halt check preserves the machine invariant. -/
theorem is_halted_inv {tm : TuringMachine} (h : tm.inv) : tm.is_halted.inv := by
  unfold TuringMachine.is_halted
  split <;> exact h

/-- A counted move in either direction preserves the machine invariant. -/
theorem move_dir_inv {tm : TuringMachine} (d : Direction) (h : tm.inv) :
    (tm.move_ d).inv := by
  unfold TuringMachine.move_
  cases d
  · exact move_left_inv h
  · exact move_right_inv h

/-- One make_transition call preserves the machine invariant whenever the
table writes only alphabet symbols. -/
theorem make_transition_inv {tm : TuringMachine}
    (hwf : tm.transition_function.writesAlphabet) (h : tm.inv) :
    (tm.make_transition).2.inv := by
  unfold TuringMachine.make_transition
  cases hget : tfGet (tm.current_state, tm.tape.getD tm.head_position 0)
      tm.transition_function.transitions with
  | none => exact h
  | some t =>
    simp only
    apply is_halted_inv
    apply move_dir_inv
    have hsym : t.2.1 = 0 ∨ t.2.1 = 1 := hwf _ (tfGet_mem hget)
    refine ⟨by simpa using h.1, ?_⟩
    intro c hcm
    rcases List.mem_or_eq_of_mem_set hcm with hcm | hcm
    · exact h.2 c hcm
    · rw [hcm]
      exact hsym

/-- C8: for a transition function writing only alphabet symbols, the
invariant (head is a valid tape index, every cell is 0 or 1) holds of the
freshly constructed machine and is preserved by every make_transition
call. -/
theorem c8_machine_invariant (tf : TransitionFunction) (tm : TuringMachine)
    (hwf : tm.transition_function.writesAlphabet) (hinv : tm.inv) :
    (TuringMachine.new tf).inv ∧ (tm.make_transition).2.inv := by
  constructor
  · refine ⟨Nat.zero_lt_one, ?_⟩
    intro c hcm
    simp only [TuringMachine.new, List.mem_singleton] at hcm
    exact Or.inl hcm
  · exact make_transition_inv hwf hinv

/-- C8 witness: the fresh machine over the empty table with one declared
state. -/
theorem c8_machine_invariant_witness :
    (TuringMachine.new (TransitionFunction.new 1 2)).inv ∧
      ((TuringMachine.new (TransitionFunction.new 1 2)).make_transition).2.inv :=
  c8_machine_invariant (TransitionFunction.new 1 2)
    (TuringMachine.new (TransitionFunction.new 1 2))
    (fun e he => absurd he (List.not_mem_nil e))
    (by constructor
        · decide
        · decide)

/-- str::split always yields at least one piece. -/
theorem splitSep_ne_nil (sep : Char) (cs : List Char) : splitSep sep cs ≠ [] := by
  induction cs with
  | nil => simp [splitSep]
  | cons c cs ih =>
    rw [splitSep]
    cases h : splitSep sep cs with
    | nil => simp
    | cons hd tl => by_cases hc : c = sep <;> simp [hc]

/-- Splitting a string free of the separator yields that string alone. -/
theorem splitSep_no_sep {sep : Char} {x : List Char} (h : sep ∉ x) :
    splitSep sep x = [x] := by
  induction x with
  | nil => rfl
  | cons c cs ih =>
    have hc : ¬(c = sep) := fun he => h (he ▸ List.mem_cons_self c cs)
    have hcs : sep ∉ cs := fun hm => h (List.mem_cons_of_mem _ hm)
    rw [splitSep, ih hcs]
    simp [hc]

/-- Splitting peels off a separator-free prefix before a separator. -/
theorem splitSep_append {sep : Char} {x rest : List Char} (h : sep ∉ x) :
    splitSep sep (x ++ sep :: rest) = x :: splitSep sep rest := by
  induction x with
  | nil =>
    simp only [List.nil_append]
    rw [splitSep]
    cases hs : splitSep sep rest with
    | nil => exact absurd hs (splitSep_ne_nil sep rest)
    | cons hd tl => simp
  | cons c cs ih =>
    have hc : ¬(c = sep) := fun he => h (he ▸ List.mem_cons_self c cs)
    have hcs : sep ∉ cs := fun hm => h (List.mem_cons_of_mem _ hm)
    simp only [List.cons_append]
    rw [splitSep, ih hcs]
    simp [hc]

/-- Splitting inverts joining for nonempty lists of separator-free
pieces. -/
theorem splitSep_joinSep (sep : Char) (l : List (List Char)) (hne : l ≠ [])
    (h : ∀ x ∈ l, sep ∉ x) : splitSep sep (joinSep sep l) = l := by
  induction l with
  | nil => exact absurd rfl hne
  | cons x xs ih =>
    cases xs with
    | nil => exact splitSep_no_sep (h x (List.mem_cons_self x []))
    | cons y ys =>
      show splitSep sep (x ++ sep :: joinSep sep (y :: ys)) = x :: y :: ys
      rw [splitSep_append (h x (List.mem_cons_self x (y :: ys)))]
      rw [ih (by simp) (fun z hz => h z (List.mem_cons_of_mem _ hz))]

/-- A character of a joined string is the separator or comes from a
piece. -/
theorem mem_joinSep {sep c : Char} {l : List (List Char)} (h : c ∈ joinSep sep l) :
    c = sep ∨ ∃ x ∈ l, c ∈ x := by
  induction l with
  | nil => cases h
  | cons x xs ih =>
    cases xs with
    | nil => exact Or.inr ⟨x, List.mem_cons_self x [], h⟩
    | cons y ys =>
      have h' : c ∈ x ++ sep :: joinSep sep (y :: ys) := h
      rcases List.mem_append.mp h' with hx | hrest
      · exact Or.inr ⟨x, List.mem_cons_self x (y :: ys), hx⟩
      · rcases List.mem_cons.mp hrest with hc | hj
        · exact Or.inl hc
        · rcases ih hj with h1 | ⟨z, hz, hcz⟩
          · exact Or.inl h1
          · exact Or.inr ⟨z, List.mem_cons_of_mem _ hz, hcz⟩

set_option maxRecDepth 4000 in
theorem parseU8_natToChars : ∀ n < 256, parseU8 (natToChars n) = some n := by decide

set_option maxRecDepth 4000 in
theorem natToChars_digits : ∀ n < 256, ',' ∉ natToChars n ∧ '|' ∉ natToChars n := by
  decide

/-- A direction code fits in a byte. -/
theorem direction_value_le (d : Direction) : d.value ≤ 255 := by
  cases d <;> decide

/-- Direction::transform inverts Direction::value. -/
theorem direction_transform_value (d : Direction) : Direction.transform d.value = d := by
  cases d <;> rfl

/-- Transition::decode inverts Transition::encode for in-range fields. -/
theorem transition_decode_encode {t : Transition} (h1 : t.from_state ≤ 255)
    (h2 : t.from_symbol ≤ 255) (h3 : t.to_state ≤ 255) (h4 : t.to_symbol ≤ 255) :
    Transition.decode t.encode = some t := by
  obtain ⟨f1, f2, f3, f4, d⟩ := t
  simp only at h1 h2 h3 h4
  unfold Transition.encode Transition.decode
  rw [splitSep_joinSep ',' _ (by simp) ?nosep]
  case nosep =>
    intro x hx
    simp only [List.mem_cons, List.mem_singleton] at hx
    rcases hx with rfl | rfl | rfl | rfl | rfl | h0
    · exact (natToChars_digits f1 (by omega)).1
    · exact (natToChars_digits f2 (by omega)).1
    · exact (natToChars_digits f3 (by omega)).1
    · exact (natToChars_digits f4 (by omega)).1
    · exact (natToChars_digits (Direction.value d) (by
        have := direction_value_le d
        omega)).1
    · cases h0
  simp only [List.mapM_cons, List.mapM_nil,
    parseU8_natToChars f1 (by omega), parseU8_natToChars f2 (by omega),
    parseU8_natToChars f3 (by omega), parseU8_natToChars f4 (by omega),
    parseU8_natToChars (Direction.value d) (by
      have := direction_value_le d
      omega)]
  simp [direction_transform_value]



/-- Looking up a key outside the stored key set fails. -/
theorem tfGet_eq_none {k : Nat × Nat} {l : List ((Nat × Nat) × (Nat × Nat × Direction))}
    (h : k ∉ l.map Prod.fst) : tfGet k l = none := by
  induction l with
  | nil => rfl
  | cons e rest ih =>
    simp only [List.map_cons, List.mem_cons] at h
    push_neg at h
    rw [tfGet, if_neg (fun he => h.1 he.symm)]
    exact ih h.2

/-- Erasing another key from the table does not change a lookup. -/
theorem tfGet_filter_ne {k k' : Nat × Nat}
    (m : List ((Nat × Nat) × (Nat × Nat × Direction))) (h : ¬(k = k')) :
    tfGet k (m.filter (fun e => decide (e.1 ≠ k'))) = tfGet k m := by
  induction m with
  | nil => rfl
  | cons e rest ih =>
    by_cases he : e.1 = k'
    · have hek : ¬(e.1 = k) := fun hek2 => h (hek2 ▸ he)
      rw [List.filter_cons_of_neg (by simp [he])]
      rw [ih]
      conv_rhs => rw [tfGet]
      rw [if_neg hek]
    · rw [List.filter_cons_of_pos (by simp [he])]
      rw [tfGet]
      conv_rhs => rw [tfGet]
      by_cases hek : e.1 = k
      · rw [if_pos hek, if_pos hek]
      · rw [if_neg hek, if_neg hek, ih]

/-- Lookup after insert: the inserted key maps to the new value, other
keys are untouched. -/
theorem tfGet_tfInsert (k k' : Nat × Nat) (v : Nat × Nat × Direction)
    (m : List ((Nat × Nat) × (Nat × Nat × Direction))) :
    tfGet k (tfInsert k' v m) = if k = k' then some v else tfGet k m := by
  unfold tfInsert
  by_cases h : k = k'
  · rw [tfGet, if_pos h.symm, if_pos h]
  · rw [tfGet, if_neg (fun he => h he.symm), if_neg h]
    exact tfGet_filter_ne m h

/-- Lookup over a fold of inserts with distinct keys: an entry of the
list wins, otherwise the accumulator answers. -/
theorem tfGet_foldl_ins (l : List ((Nat × Nat) × (Nat × Nat × Direction)))
    (acc : List ((Nat × Nat) × (Nat × Nat × Direction)))
    (hnd : (l.map Prod.fst).Nodup) (k : Nat × Nat) :
    tfGet k (l.foldl (fun m e => tfInsert e.1 e.2 m) acc) =
      match tfGet k l with
      | some v => some v
      | none => tfGet k acc := by
  induction l generalizing acc with
  | nil => rfl
  | cons e rest ih =>
    simp only [List.map_cons, List.nodup_cons] at hnd
    simp only [List.foldl_cons]
    rw [ih _ hnd.2]
    rw [tfGet]
    by_cases hek : e.1 = k
    · have hnone : tfGet k rest = none := by
        apply tfGet_eq_none
        rw [← hek]
        exact hnd.1
      rw [hnone, if_pos hek]
      rw [tfGet_tfInsert, if_pos hek.symm]
    · rw [if_neg hek]
      cases hres : tfGet k rest with
      | some v => rfl
      | none =>
        simp only
        rw [tfGet_tfInsert, if_neg (fun hk => hek hk.symm)]

/-- With distinct keys, lookup is invariant under permutation of the
entry list. -/
theorem tfGet_perm {l l' : List ((Nat × Nat) × (Nat × Nat × Direction))}
    (hp : l.Perm l') (hnd : (l.map Prod.fst).Nodup) (k : Nat × Nat) :
    tfGet k l = tfGet k l' := by
  induction hp with
  | nil => rfl
  | cons e hp ih =>
    rename_i l1 l2
    simp only [List.map_cons, List.nodup_cons] at hnd
    rw [tfGet, tfGet]
    by_cases he : e.1 = k
    · simp [he]
    · simp only [he, if_false, ite_false]
      exact ih hnd.2
  | swap x y rest =>
    simp only [List.map_cons, List.nodup_cons, List.mem_cons] at hnd
    have hxy : ¬(y.1 = x.1) := fun he => hnd.1 (Or.inl he)
    rw [tfGet, tfGet, tfGet, tfGet]
    by_cases hy : y.1 = k <;> by_cases hx : x.1 = k <;> simp [hy, hx]
    exact absurd (hy.trans hx.symm) hxy
  | trans h1 h2 ih1 ih2 =>
    rw [ih1 hnd]
    exact ih2 ((h1.map Prod.fst).nodup hnd)

/-- The table produced by folding add_transition is the fold of the
underlying inserts. -/
theorem foldl_add_transition_transitions (ts : List Transition)
    (tf : TransitionFunction) :
    (ts.foldl TransitionFunction.add_transition tf).transitions =
      ts.foldl (fun m t => tfInsert (t.from_state, t.from_symbol)
        (t.to_state, t.to_symbol, t.direction) m) tf.transitions := by
  induction ts generalizing tf with
  | nil => rfl
  | cons t rest ih =>
    simp only [List.foldl_cons]
    exact ih _

/-- Decoding every encoded entry of an in-range table recovers the
entries. -/
theorem mapM_decode_encode_map
    (l : List ((Nat × Nat) × (Nat × Nat × Direction)))
    (hwf : ∀ e ∈ l, e.1.1 ≤ 255 ∧ e.1.2 ≤ 255 ∧ e.2.1 ≤ 255 ∧ e.2.2.1 ≤ 255) :
    (l.map (fun e => (Transition.get_from_hashmap e).encode)).mapM
      Transition.decode = some (l.map Transition.get_from_hashmap) := by
  induction l with
  | nil => rfl
  | cons e rest ih =>
    obtain ⟨w1, w2, w3, w4⟩ := hwf e (List.mem_cons_self e rest)
    simp only [List.map_cons, List.mapM_cons]
    rw [transition_decode_encode w1 w2 w3 w4]
    rw [ih (fun z hz => hwf z (List.mem_cons_of_mem _ hz))]
    rfl

/-- C1: for every complete, valid transition table (nonempty, distinct
keys, all fields in u8 range), decoding the string encoded from ANY
permutation of its entries succeeds and yields a table with exactly the
same key-value mapping. -/
theorem c1_encode_decode_roundtrip (tf : TransitionFunction)
    (l' : List ((Nat × Nat) × (Nat × Nat × Direction)))
    (hperm : tf.transitions.Perm l')
    (hnodup : (tf.transitions.map Prod.fst).Nodup)
    (hne : tf.transitions ≠ [])
    (hwf : ∀ e ∈ tf.transitions,
      e.1.1 ≤ 255 ∧ e.1.2 ≤ 255 ∧ e.2.1 ≤ 255 ∧ e.2.2.1 ≤ 255) :
    ∃ g, (TransitionFunction.new tf.number_of_states tf.number_of_symbols).decode
        (TransitionFunction.encode { tf with transitions := l' }) = some g ∧
      ∀ k, tfGet k g.transitions = tfGet k tf.transitions := by
  have hwf' : ∀ e ∈ l', e.1.1 ≤ 255 ∧ e.1.2 ≤ 255 ∧ e.2.1 ≤ 255 ∧ e.2.2.1 ≤ 255 :=
    fun e he => hwf e (hperm.mem_iff.mpr he)
  have hne' : l' ≠ [] := by
    intro h0
    rw [h0] at hperm
    exact hne (List.Perm.eq_nil hperm)
  have hnodup' : (l'.map Prod.fst).Nodup := (hperm.map Prod.fst).nodup hnodup
  unfold TransitionFunction.encode TransitionFunction.decode
  simp only
  rw [splitSep_joinSep '|' _ (by simpa using hne') ?pipes]
  case pipes =>
    intro x hx
    simp only [List.mem_map] at hx
    obtain ⟨e, he, rfl⟩ := hx
    intro hmem
    rcases mem_joinSep hmem with h | ⟨z, hz, hcz⟩
    · cases h
    · obtain ⟨w1, w2, w3, w4⟩ := hwf' e he
      simp only [Transition.get_from_hashmap, List.mem_cons, List.mem_singleton] at hz
      rcases hz with rfl | rfl | rfl | rfl | rfl | h0
      · exact (natToChars_digits e.1.1 (by omega)).2 hcz
      · exact (natToChars_digits e.1.2 (by omega)).2 hcz
      · exact (natToChars_digits e.2.1 (by omega)).2 hcz
      · exact (natToChars_digits e.2.2.1 (by omega)).2 hcz
      · exact (natToChars_digits (Direction.value e.2.2.2) (by
          have := direction_value_le e.2.2.2
          omega)).2 hcz
      · cases h0
  rw [mapM_decode_encode_map l' hwf']
  simp only
  refine ⟨_, rfl, ?_⟩
  intro k
  rw [foldl_add_transition_transitions]
  have hfold : (l'.map Transition.get_from_hashmap).foldl
      (fun m t => tfInsert (t.from_state, t.from_symbol)
        (t.to_state, t.to_symbol, t.direction) m)
      (TransitionFunction.new tf.number_of_states tf.number_of_symbols).transitions =
      l'.foldl (fun m e => tfInsert e.1 e.2 m) [] := by
    rw [List.foldl_map]
    rfl
  rw [hfold]
  rw [tfGet_foldl_ins l' [] hnodup' k]
  rw [tfGet_perm hperm hnodup k]
  cases tfGet k l' with
  | some v => rfl
  | none => rfl

/-- C1 witness: the two-entry table tfC1 encoded from its reversed entry
list decodes back to the same mapping. -/
theorem c1_encode_decode_roundtrip_witness :
    ∃ g, (TransitionFunction.new tfC1.number_of_states tfC1.number_of_symbols).decode
        (TransitionFunction.encode
          { tfC1 with transitions := tfC1.transitions.reverse }) = some g ∧
      ∀ k, tfGet k g.transitions = tfGet k tfC1.transitions :=
  c1_encode_decode_roundtrip tfC1 tfC1.transitions.reverse
    (List.reverse_perm tfC1.transitions).symm (by decide) (by decide) (by decide)

/-- One unfolding of the execute loop. -/
theorem executeLoop_succ (n : Nat) (fs : FilterRuntime) (tm : TuringMachine) :
    executeLoop (n + 1) fs tm =
      if tm.halted = false ∧ tm.steps < MAX_STEPS_TO_RUN then
        if (fs.filter_all_tagged tm).1 = FilterRuntimeType.None then
          executeLoop n (fs.filter_all_tagged tm).2 (tm.make_transition).2
        else some { tm with filtered := (fs.filter_all_tagged tm).1 }
      else some tm := rfl

/-- More fuel never changes a loop that already returned. -/
theorem executeLoop_mono {n m : Nat} {fs : FilterRuntime} {tm r : TuringMachine}
    (h : executeLoop n fs tm = some r) (hnm : n ≤ m) :
    executeLoop m fs tm = some r := by
  induction n generalizing m fs tm with
  | zero => cases h
  | succ n ih =>
    obtain ⟨m', rfl⟩ : ∃ m', m = m' + 1 := ⟨m - 1, by omega⟩
    rw [executeLoop_succ] at h
    rw [executeLoop_succ]
    by_cases hg : tm.halted = false ∧ tm.steps < MAX_STEPS_TO_RUN
    · rw [if_pos hg] at h ⊢
      by_cases ht : (fs.filter_all_tagged tm).1 = FilterRuntimeType.None
      · rw [if_pos ht] at h ⊢
        exact ih h (by omega)
      · rw [if_neg ht] at h ⊢
        exact h
    · rw [if_neg hg] at h ⊢
      exact h

/-- A loop result that is neither halted nor tagged left through the
step-budget guard: its step counter reached MAX_STEPS_TO_RUN. -/
theorem executeLoop_holdout {n : Nat} {fs : FilterRuntime} {tm r : TuringMachine}
    (h : executeLoop n fs tm = some r) (hh : r.halted = false)
    (hf : r.filtered = FilterRuntimeType.None) : MAX_STEPS_TO_RUN ≤ r.steps := by
  induction n generalizing fs tm with
  | zero => cases h
  | succ n ih =>
    rw [executeLoop_succ] at h
    by_cases hg : tm.halted = false ∧ tm.steps < MAX_STEPS_TO_RUN
    · rw [if_pos hg] at h
      by_cases ht : (fs.filter_all_tagged tm).1 = FilterRuntimeType.None
      · rw [if_pos ht] at h
        exact ih h
      · rw [if_neg ht] at h
        injection h with h2
        rw [← h2] at hf
        exact absurd hf ht
    · rw [if_neg hg] at h
      injection h with h2
      rw [← h2] at hh
      rw [← h2]
      push_neg at hg
      exact hg hh

/-- A left move keeps the head inside the tape. -/
theorem move_left_head {tm : TuringMachine} (h : tm.head_position < tm.tape.length) :
    (tm.move_left).head_position < (tm.move_left).tape.length := by
  unfold TuringMachine.move_left
  by_cases h0 : tm.head_position = 0 <;> simp [h0] <;> omega

/-- A right move keeps the head inside the tape. -/
theorem move_right_head {tm : TuringMachine} (h : tm.head_position < tm.tape.length) :
    (tm.move_right).head_position < (tm.move_right).tape.length := by
  unfold TuringMachine.move_right
  by_cases hg : tm.tape.length - 1 < tm.head_position + 1 <;> simp [hg] <;> omega

/-- A counted move keeps the head inside the tape. -/
theorem move_dir_head {tm : TuringMachine} (d : Direction)
    (h : tm.head_position < tm.tape.length) :
    (tm.move_ d).head_position < (tm.move_ d).tape.length := by
  unfold TuringMachine.move_
  cases d
  · exact move_left_head h
  · exact move_right_head h

/-- The halt check keeps the head inside the tape. -/
theorem is_halted_head {tm : TuringMachine} (h : tm.head_position < tm.tape.length) :
    (tm.is_halted).head_position < (tm.is_halted).tape.length := by
  unfold TuringMachine.is_halted
  split <;> exact h

/-- A make_transition call keeps the head inside the tape. -/
theorem make_transition_head {tm : TuringMachine}
    (h : tm.head_position < tm.tape.length) :
    (tm.make_transition).2.head_position < (tm.make_transition).2.tape.length := by
  unfold TuringMachine.make_transition
  cases hget : tfGet (tm.current_state, tm.tape.getD tm.head_position 0)
      tm.transition_function.transitions with
  | none => exact h
  | some t =>
    simp only
    apply is_halted_head
    apply move_dir_head
    simpa using h

/-- Moves leave the transition function untouched. -/
theorem move_tf (tm : TuringMachine) (d : Direction) :
    (tm.move_ d).transition_function = tm.transition_function := by
  unfold TuringMachine.move_ TuringMachine.move_left TuringMachine.move_right
  cases d <;> simp only
  · split <;> rfl
  · split <;> rfl

/-- The halt check leaves the transition function untouched. -/
theorem is_halted_tf (tm : TuringMachine) :
    (tm.is_halted).transition_function = tm.transition_function := by
  unfold TuringMachine.is_halted
  split <;> rfl

/-- A make_transition call leaves the transition function untouched. -/
theorem make_transition_tf (tm : TuringMachine) :
    (tm.make_transition).2.transition_function = tm.transition_function := by
  unfold TuringMachine.make_transition
  cases hget : tfGet (tm.current_state, tm.tape.getD tm.head_position 0)
      tm.transition_function.transitions with
  | none => rfl
  | some t =>
    simp only
    rw [is_halted_tf, move_tf]

/-- A counted move increments the step counter. -/
theorem move_steps (tm : TuringMachine) (d : Direction) :
    (tm.move_ d).steps = tm.steps + 1 := by
  unfold TuringMachine.move_ TuringMachine.move_left TuringMachine.move_right
  cases d <;> simp only
  · split <;> rfl
  · split <;> rfl

/-- The halt check leaves the step counter untouched. -/
theorem is_halted_steps (tm : TuringMachine) : (tm.is_halted).steps = tm.steps := by
  unfold TuringMachine.is_halted
  split <;> rfl

/-- A make_transition hit increments the step counter exactly once. -/
theorem make_transition_steps_hit {tm : TuringMachine} {t : Nat × Nat × Direction}
    (hget : tfGet (tm.current_state, tm.tape.getD tm.head_position 0)
      tm.transition_function.transitions = some t) :
    (tm.make_transition).2.steps = tm.steps + 1 := by
  unfold TuringMachine.make_transition
  rw [hget]
  simp only
  rw [is_halted_steps, move_steps]

/-- Closed form of the long-escapee filter. -/
theorem filter_long_escapees_eq (fs : FilterRuntime) (tm : TuringMachine) :
    fs.filter_long_escapees tm =
      if tm.tape.length = 0 then (true, fs)
      else if tm.tape_increased = false then (true, { fs with counter := 0 })
      else (decide (fs.counter + 1 ≤ tm.transition_function.number_of_states),
        { fs with counter := fs.counter + 1 }) := rfl

/-- Closed form of the cycler filter. -/
theorem filter_cyclers_eq (fs : FilterRuntime) (tm : TuringMachine) :
    fs.filter_cyclers tm =
      if tm.encode ∈ fs.history then (false, fs)
      else (true, { fs with history := fs.history ++ [tm.encode] }) := rfl

/-- The tagged bundle as a cascade of the three filters in evaluation
order. -/
theorem filter_all_tagged_eq (fs : FilterRuntime) (tm : TuringMachine) :
    fs.filter_all_tagged tm =
      if (fs.filter_long_escapees tm).1 = false then
        (FilterRuntimeType.LongEscapee, (fs.filter_long_escapees tm).2)
      else if FilterRuntime.filter_short_escapees tm = false then
        (FilterRuntimeType.ShortEscapee, (fs.filter_long_escapees tm).2)
      else if ((fs.filter_long_escapees tm).2.filter_cyclers tm).1 = false then
        (FilterRuntimeType.Cycler, ((fs.filter_long_escapees tm).2.filter_cyclers tm).2)
      else
        (FilterRuntimeType.None, ((fs.filter_long_escapees tm).2.filter_cyclers tm).2) := by
  cases hbL : (fs.filter_long_escapees tm).1 <;>
    cases hbS : FilterRuntime.filter_short_escapees tm <;>
      cases hbC : ((fs.filter_long_escapees tm).2.filter_cyclers tm).1 <;>
        simp [FilterRuntime.filter_all_tagged, hbL, hbS, hbC]

/-- When the long and short filters pass, the bundle is decided by the
cycler alone. -/
theorem filter_all_tagged_of_pass {fs : FilterRuntime} {tm : TuringMachine}
    (hL : (fs.filter_long_escapees tm).1 = true)
    (hS : FilterRuntime.filter_short_escapees tm = true) :
    fs.filter_all_tagged tm =
      if tm.encode ∈ (fs.filter_long_escapees tm).2.history then
        (FilterRuntimeType.Cycler, (fs.filter_long_escapees tm).2)
      else (FilterRuntimeType.None,
        { (fs.filter_long_escapees tm).2 with
          history := (fs.filter_long_escapees tm).2.history ++ [tm.encode] }) := by
  rw [filter_all_tagged_eq, if_neg (by simp [hL]), if_neg (by simp [hS])]
  by_cases hc : tm.encode ∈ (fs.filter_long_escapees tm).2.history <;>
    simp [filter_cyclers_eq, hc]

/-- Without a fresh cell, the long-escapee filter passes and keeps the
history. -/
theorem filter_long_not_increased {tm : TuringMachine}
    (hinc : tm.tape_increased = false) (gs : FilterRuntime) :
    (gs.filter_long_escapees tm).1 = true ∧
      (gs.filter_long_escapees tm).2.history = gs.history := by
  rw [filter_long_escapees_eq]
  by_cases h0 : tm.tape.length = 0
  · rw [if_pos h0]
    exact ⟨rfl, rfl⟩
  · rw [if_neg h0, if_pos hinc]
    exact ⟨rfl, rfl⟩

/-- Without a fresh cell, the short-escapee filter passes. -/
theorem filter_short_not_increased {tm : TuringMachine}
    (hinc : tm.tape_increased = false) :
    FilterRuntime.filter_short_escapees tm = true := by
  unfold FilterRuntime.filter_short_escapees
  by_cases h0 : tm.tape.length = 0 <;> simp [h0, hinc]

/-- On a fresh cell, the long-escapee filter counts and compares against
the number of states. -/
theorem filter_long_increased {tm : TuringMachine} (hlen : ¬(tm.tape.length = 0))
    (hinc : tm.tape_increased = true) (gs : FilterRuntime) :
    gs.filter_long_escapees tm =
      (decide (gs.counter + 1 ≤ tm.transition_function.number_of_states),
        { gs with counter := gs.counter + 1 }) := by
  rw [filter_long_escapees_eq, if_neg hlen, if_neg (by simp [hinc])]

/-- The machine after a missed transition is the machine itself. -/
theorem make_transition_miss_snd {tm : TuringMachine}
    (h : tfGet (tm.current_state, tm.tape.getD tm.head_position 0)
      tm.transition_function.transitions = none) :
    (tm.make_transition).2 = tm := by
  rw [make_transition_miss h]

/-- A rejected configuration ends the loop at once, recording the tag. -/
theorem executeLoop_reject_step {fs : FilterRuntime} {tm : TuringMachine} (n : Nat)
    (hg : tm.halted = false ∧ tm.steps < MAX_STEPS_TO_RUN)
    (ht : ¬((fs.filter_all_tagged tm).1 = FilterRuntimeType.None)) :
    executeLoop (n + 1) fs tm =
      some { tm with filtered := (fs.filter_all_tagged tm).1 } := by
  rw [executeLoop_succ, if_pos hg, if_neg ht]

/-- A fully passing filter evaluation: tag None, the configuration is
recorded, the counter comes from the long filter. -/
theorem pass_state {fs : FilterRuntime} {tm : TuringMachine}
    (hL : (fs.filter_long_escapees tm).1 = true)
    (hS : FilterRuntime.filter_short_escapees tm = true)
    (hmem : tm.encode ∉ (fs.filter_long_escapees tm).2.history) :
    (fs.filter_all_tagged tm).1 = FilterRuntimeType.None ∧
      (fs.filter_all_tagged tm).2.history =
        (fs.filter_long_escapees tm).2.history ++ [tm.encode] ∧
      (fs.filter_all_tagged tm).2.counter =
        (fs.filter_long_escapees tm).2.counter := by
  rw [filter_all_tagged_of_pass hL hS, if_neg hmem]
  exact ⟨rfl, rfl, rfl⟩

/-- A machine frozen on a missing transition whose last step visited no
fresh cell is stopped by the cycler within two loop iterations. -/
theorem frozen_not_increased {tm : TuringMachine}
    (hmiss : tfGet (tm.current_state, tm.tape.getD tm.head_position 0)
      tm.transition_function.transitions = none)
    (hinc : tm.tape_increased = false) :
    ∀ fs, ∃ r, executeLoop 2 fs tm = some r := by
  intro fs
  by_cases hg : tm.halted = false ∧ tm.steps < MAX_STEPS_TO_RUN
  case neg => exact ⟨_, by rw [executeLoop_succ, if_neg hg]⟩
  have hS := filter_short_not_increased hinc
  have hL := (filter_long_not_increased hinc fs).1
  by_cases hc : tm.encode ∈ (fs.filter_long_escapees tm).2.history
  · exact ⟨_, executeLoop_reject_step 1 hg
      (by simp [filter_all_tagged_of_pass hL hS, hc])⟩
  · obtain ⟨htag, hhist, -⟩ := pass_state hL hS hc
    refine ⟨{ tm with
      filtered := (((fs.filter_all_tagged tm).2).filter_all_tagged tm).1 }, ?_⟩
    rw [executeLoop_succ, if_pos hg, if_pos htag, make_transition_miss_snd hmiss]
    have hL2 := (filter_long_not_increased hinc (fs.filter_all_tagged tm).2).1
    have hmem2 : tm.encode ∈
        (((fs.filter_all_tagged tm).2).filter_long_escapees tm).2.history := by
      rw [(filter_long_not_increased hinc (fs.filter_all_tagged tm).2).2, hhist]
      simp
    exact executeLoop_reject_step 0 hg
      (by simp [filter_all_tagged_of_pass hL2 hS, hmem2])

/-- A machine frozen on a missing transition after growing the tape is
stopped once the long-escapee counter passes the number of states. -/
theorem frozen_increased {tm : TuringMachine}
    (hmiss : tfGet (tm.current_state, tm.tape.getD tm.head_position 0)
      tm.transition_function.transitions = none)
    (hlen : ¬(tm.tape.length = 0)) (hinc : tm.tape_increased = true) :
    ∀ m fs, tm.transition_function.number_of_states + 1 - fs.counter ≤ m →
      ∃ r, executeLoop (m + 1) fs tm = some r := by
  intro m
  induction m with
  | zero =>
    intro fs hm
    by_cases hg : tm.halted = false ∧ tm.steps < MAX_STEPS_TO_RUN
    case neg => exact ⟨_, by rw [executeLoop_succ, if_neg hg]⟩
    have hrej : (fs.filter_long_escapees tm).1 = false := by
      rw [filter_long_increased hlen hinc]
      simp only [decide_eq_false_iff_not]
      omega
    exact ⟨_, executeLoop_reject_step 0 hg
      (by simp [filter_all_tagged_eq, hrej])⟩
  | succ m ih =>
    intro fs hm
    by_cases hg : tm.halted = false ∧ tm.steps < MAX_STEPS_TO_RUN
    case neg => exact ⟨_, by rw [executeLoop_succ, if_neg hg]⟩
    by_cases hcnt : fs.counter + 1 ≤ tm.transition_function.number_of_states
    · have hL : (fs.filter_long_escapees tm).1 = true := by
        rw [filter_long_increased hlen hinc]
        simp [hcnt]
      by_cases hS : FilterRuntime.filter_short_escapees tm = true
      · by_cases hc : tm.encode ∈ (fs.filter_long_escapees tm).2.history
        · exact ⟨_, executeLoop_reject_step (m + 1) hg
            (by simp [filter_all_tagged_of_pass hL hS, hc])⟩
        · obtain ⟨htag, -, hcnt2⟩ := pass_state hL hS hc
          have hcnt3 : ((fs.filter_long_escapees tm).2).counter = fs.counter + 1 := by
            rw [filter_long_increased hlen hinc]
          obtain ⟨r, hr⟩ := ih (fs.filter_all_tagged tm).2 (by
            rw [hcnt2, hcnt3]
            omega)
          refine ⟨r, ?_⟩
          rw [executeLoop_succ, if_pos hg, if_pos htag, make_transition_miss_snd hmiss]
          exact hr
      · have hS' : FilterRuntime.filter_short_escapees tm = false := by
          cases hb : FilterRuntime.filter_short_escapees tm
          · rfl
          · exact absurd hb hS
        exact ⟨_, executeLoop_reject_step (m + 1) hg
          (by simp [filter_all_tagged_eq, hL, hS'])⟩
    · have hrej : (fs.filter_long_escapees tm).1 = false := by
        rw [filter_long_increased hlen hinc]
        simp only [decide_eq_false_iff_not]
        omega
      exact ⟨_, executeLoop_reject_step (m + 1) hg
        (by simp [filter_all_tagged_eq, hrej])⟩

/-- A machine frozen on a missing transition is always stopped within
number_of_states + 3 iterations. -/
theorem executeLoop_frozen {tm : TuringMachine}
    (hmiss : tfGet (tm.current_state, tm.tape.getD tm.head_position 0)
      tm.transition_function.transitions = none)
    (hlen : ¬(tm.tape.length = 0)) :
    ∀ fs, ∃ r,
      executeLoop (tm.transition_function.number_of_states + 3) fs tm = some r := by
  intro fs
  cases hb : tm.tape_increased
  · obtain ⟨r, hr⟩ := frozen_not_increased hmiss hb fs
    exact ⟨r, executeLoop_mono hr (by omega)⟩
  · obtain ⟨r, hr⟩ := frozen_increased hmiss hlen hb
      (tm.transition_function.number_of_states + 1) fs (by omega)
    exact ⟨r, executeLoop_mono hr (by omega)⟩

/-- The execute loop always returns within the computed fuel: every
iteration either counts a step toward the budget or freezes the machine,
and a frozen machine is stopped by the filters. -/
theorem executeLoop_total :
    ∀ n (tm : TuringMachine) (fs : FilterRuntime),
      tm.head_position < tm.tape.length →
      (MAX_STEPS_TO_RUN - tm.steps).toNat ≤ n →
      ∃ r, executeLoop ((n + 1) * (tm.transition_function.number_of_states + 3)) fs tm
        = some r := by
  intro n
  induction n using Nat.strong_induction_on with
  | _ n ih =>
    intro tm fs hhead hn
    have hmax : MAX_STEPS_TO_RUN = (21 : Int) := rfl
    obtain ⟨k, hk⟩ :
        ∃ k, (n + 1) * (tm.transition_function.number_of_states + 3) = k + 1 := by
      refine ⟨(n + 1) * (tm.transition_function.number_of_states + 3) - 1, ?_⟩
      have h1 : 1 ≤ (n + 1) * (tm.transition_function.number_of_states + 3) :=
        Nat.one_le_iff_ne_zero.mpr (Nat.mul_ne_zero (by omega) (by omega))
      omega
    have hmul : (n + 1) * (tm.transition_function.number_of_states + 3) =
        n * (tm.transition_function.number_of_states + 3) +
          (tm.transition_function.number_of_states + 3) :=
      Nat.succ_mul n _
    by_cases hg : tm.halted = false ∧ tm.steps < MAX_STEPS_TO_RUN
    case neg => exact ⟨tm, by rw [hk, executeLoop_succ, if_neg hg]⟩
    have hn1 : 1 ≤ n := by
      have hs := hg.2
      rw [hmax] at hs
      omega
    by_cases ht : (fs.filter_all_tagged tm).1 = FilterRuntimeType.None
    case neg => exact ⟨_, by rw [hk]; exact executeLoop_reject_step k hg ht⟩
    cases hget : tfGet (tm.current_state, tm.tape.getD tm.head_position 0)
        tm.transition_function.transitions with
    | none =>
      obtain ⟨r, hr⟩ := executeLoop_frozen hget (by omega) (fs.filter_all_tagged tm).2
      refine ⟨r, ?_⟩
      rw [hk, executeLoop_succ, if_pos hg, if_pos ht, make_transition_miss_snd hget]
      have hd : tm.transition_function.number_of_states + 3 ≤
          n * (tm.transition_function.number_of_states + 3) :=
        Nat.le_mul_of_pos_left _ (by omega)
      exact executeLoop_mono hr (by omega)
    | some t =>
      have hhead2 := make_transition_head hhead
      have hsteps := make_transition_steps_hit hget
      have htf := make_transition_tf tm
      have hn2 : (MAX_STEPS_TO_RUN - (tm.make_transition).2.steps).toNat ≤ n - 1 := by
        rw [hsteps, hmax]
        have hs := hg.2
        rw [hmax] at hs
        omega
      obtain ⟨r, hr⟩ := ih (n - 1) (by omega) (tm.make_transition).2
        (fs.filter_all_tagged tm).2 hhead2 hn2
      rw [htf] at hr
      have hn3 : n - 1 + 1 = n := by omega
      rw [hn3] at hr
      refine ⟨r, ?_⟩
      rw [hk, executeLoop_succ, if_pos hg, if_pos ht]
      have hd : tm.transition_function.number_of_states + 3 ≤
          n * (tm.transition_function.number_of_states + 3) :=
        Nat.le_mul_of_pos_left _ (by omega)
      exact executeLoop_mono hr (by omega)

/-- C7: execute terminates on every machine with a valid head index: the
loop returns within the computed fuel; whenever the result is neither
halted nor tagged, its step counter reached MAX_STEPS_TO_RUN; and after
the loop only the score metric changes (set_score keeps tape, head,
state, halted, steps and the verdict). -/
theorem c7_execute_terminates (tm : TuringMachine)
    (hhead : tm.head_position < tm.tape.length) :
    ∃ r, executeLoop ((tm.make_transition).2.fuel) FilterRuntime.new
        (tm.make_transition).2 = some r ∧
      tm.execute = some r.set_score ∧
      (r.halted = false → r.filtered = FilterRuntimeType.None →
        MAX_STEPS_TO_RUN ≤ r.steps) ∧
      r.set_score.tape = r.tape ∧ r.set_score.head_position = r.head_position ∧
      r.set_score.current_state = r.current_state ∧ r.set_score.halted = r.halted ∧
      r.set_score.steps = r.steps ∧ r.set_score.filtered = r.filtered := by
  have hhead1 := make_transition_head hhead
  obtain ⟨r, hr⟩ := executeLoop_total
    ((MAX_STEPS_TO_RUN - (tm.make_transition).2.steps).toNat)
    (tm.make_transition).2 FilterRuntime.new hhead1 (le_refl _)
  rw [show ((MAX_STEPS_TO_RUN - (tm.make_transition).2.steps).toNat + 1) *
      ((tm.make_transition).2.transition_function.number_of_states + 3) =
      (tm.make_transition).2.fuel from rfl] at hr
  refine ⟨r, hr, ?_, ?_, rfl, rfl, rfl, rfl, rfl, rfl⟩
  · show Option.map TuringMachine.set_score
      (executeLoop (tm.make_transition).2.fuel FilterRuntime.new
        (tm.make_transition).2) = some r.set_score
    rw [hr]
    rfl
  · exact fun hh hf => executeLoop_holdout hr hh hf

/-- C7 witness: the machine over the immediately halting table. -/
theorem c7_execute_terminates_witness :
    ∃ r, executeLoop (((TuringMachine.new tfHalt).make_transition).2.fuel)
        FilterRuntime.new ((TuringMachine.new tfHalt).make_transition).2 = some r ∧
      (TuringMachine.new tfHalt).execute = some r.set_score ∧
      (r.halted = false → r.filtered = FilterRuntimeType.None →
        MAX_STEPS_TO_RUN ≤ r.steps) ∧
      r.set_score.tape = r.tape ∧ r.set_score.head_position = r.head_position ∧
      r.set_score.current_state = r.current_state ∧ r.set_score.halted = r.halted ∧
      r.set_score.steps = r.steps ∧ r.set_score.filtered = r.filtered :=
  c7_execute_terminates (TuringMachine.new tfHalt) (by decide)

end BusyBeaver
